/-
  Verification of the clio resilience layer: LoadBalancer (source selection,
  failover, forwarding, live-stream leader election), the Retry/backoff
  primitive, and the DOSGuard admission-control guard.

  Shallow embedding notes:
  - C++ unsigned counters are modelled as Nat; the counters relevant to the
    claims stay far below any machine-word bound.
  - `std::unordered_map` keyed by IP string is modelled as a function
    `String -> Option v` (none = key absent), so erasing an entry is
    distinguishable from storing zero.
  - `LoadBalancer::execute`'s unbounded `while (true)` loop is embedded with
    an explicit fuel parameter: `none` means "still looping after `fuel`
    iterations" (or undefined behaviour), `some r` means the loop returned `r`.
  - The `numAttempts` counter in `execute` only drives logging and the
    periodic 2-second sleep, neither of which affects the returned value;
    the sleep is a real-time effect outside the embedding.
  - `rand() % sources_.size()` on an empty pool is integer division by zero
    (undefined behaviour); `startSourceIdx` models it as `none`.
-/
import Mathlib

namespace Clio

/-! ## LoadBalancer (src/unnamed/part_000) -/

/-- `srand((unsigned)time(0)); auto sourceIdx = rand() % sources_.size();`
from `LoadBalancer::execute` and `LoadBalancer::forwardToRippled`.
`r` is the value returned by `rand()`. With an empty pool the modulo divides
by zero, which is undefined behaviour in C++ and modelled here as `none`. -/
def startSourceIdx (r n : Nat) : Option Nat :=
  if n = 0 then none else some (r % n)

/-- The `while (true)` loop body of `LoadBalancer::execute`.
`hasL s` models `source->hasLedger(ledgerSequence)`; `f s st` models calling
the caller-supplied closure `f(source)`, which may mutate its captured state
(threaded explicitly as `st`) and returns a success flag. On worker success
the loop breaks and `execute` returns `true`. Otherwise (worker failure or
ledger not present) the index advances with wrap-around. `fuel` bounds the
number of iterations we unfold; `none` means the loop has not returned yet. -/
def executeLoop {α σ : Type} (ws : List α) (hasL : α → Bool) (f : α → σ → σ × Bool) :
    Nat → Nat → σ → Option (σ × Bool)
  | _, 0, _ => none
  | idx, fuel+1, st =>
    match ws.get? idx with
    | none => none
    | some s =>
      if hasL s then
        let p := f s st
        if p.2 then some (p.1, true)
        else executeLoop ws hasL f ((idx + 1) % ws.length) fuel p.1
      else executeLoop ws hasL f ((idx + 1) % ws.length) fuel st

/-- `LoadBalancer::execute(Func f, uint32_t ledgerSequence)`: draws the random
starting index, then runs the retry loop. The returned pair is the final
state of the worker closure together with the returned boolean. -/
def executeB {α σ : Type} (ws : List α) (hasL : α → Bool) (f : α → σ → σ × Bool)
    (r fuel : Nat) (st : σ) : Option (σ × Bool) :=
  match startSourceIdx r ws.length with
  | none => none
  | some idx => executeLoop ws hasL f idx fuel st

/-- A Source as seen by `LoadBalancer::fetchLedger`: `hasLedgerB` is the
answer of `hasLedger(ledgerSequence)` for the sequence being fetched,
`statusOk`/`validated` model `status.ok()` and `response.validated()`, and
`payload` stands for the fetched raw ledger data. -/
structure FetchSource where
  hasLedgerB : Bool
  statusOk : Bool
  validated : Bool
  payload : Nat
deriving DecidableEq

/-- The closure passed to `execute` by `fetchLedger`: stores the reply into
the captured `response` (unconditionally, before checking the status) and
succeeds iff `status.ok() && response.validated()`. The closure state is the
captured `response`, modelled as payload plus validated flag. -/
def fetchWorker (s : FetchSource) (_resp : Nat × Bool) : (Nat × Bool) × Bool :=
  ((s.payload, s.validated), s.statusOk && s.validated)

/-- `LoadBalancer::fetchLedger`: `if (success) return response; else return {};`
The inner `Option` is the returned `DataType`: `none` models the
default-constructed empty result `{}`. The outer `Option` is the fuel bound:
`none` means the call has not returned. -/
def fetchLedger (ws : List FetchSource) (r fuel : Nat) : Option (Option (Nat × Bool)) :=
  match executeB ws (fun s => s.hasLedgerB) fetchWorker r fuel ((0 : Nat), false) with
  | none => none
  | some (resp, success) => some (if success then some resp else none)

/-- A Source as seen by `LoadBalancer::loadInitialLedger`: `initData`/`initOk`
model the `(data, res)` pair returned by `source->loadInitialLedger`. -/
structure InitSource where
  hasLedgerB : Bool
  initData : List Nat
  initOk : Bool
deriving DecidableEq

/-- The closure passed to `execute` by `loadInitialLedger`: on success moves
the downloaded records into the captured `response`, otherwise leaves it. -/
def initWorker (s : InitSource) (resp : List Nat) : List Nat × Bool :=
  (if s.initOk then s.initData else resp, s.initOk)

/-- `LoadBalancer::loadInitialLedger`: returns `{std::move(response), success}`. -/
def loadInitialLedger (ws : List InitSource) (r fuel : Nat) : Option (List Nat × Bool) :=
  executeB ws (fun s => s.hasLedgerB) initWorker r fuel []

/-- The `while (numAttempts < sources_.size())` loop of
`LoadBalancer::forwardToRippled`. Each Source is modelled by its forwarding
result `Option β` (`none` = empty/failed forward). `remaining` is
`sources_.size() - numAttempts`, the number of attempts still allowed. -/
def forwardLoop {β : Type} (ws : List (Option β)) : Nat → Nat → Option β
  | _, 0 => none
  | idx, remaining+1 =>
    match ws.get? idx with
    | none => none
    | some r =>
      match r with
      | some v => some v
      | none => forwardLoop ws ((idx + 1) % ws.length) remaining

/-- `LoadBalancer::forwardToRippled(request, clientIp, yield)`: random start
index, then a single bounded round-robin pass. The outer `Option` is `none`
only for the empty-pool division by zero; `some x` is the returned
`optional<json>` value `x`. -/
def forwardToRippled {β : Type} (ws : List (Option β)) (r : Nat) : Option (Option β) :=
  match startSourceIdx r ws.length with
  | none => none
  | some idx => some (forwardLoop ws idx ws.length)

/-- Spec-side description of `forwardToRippled` (for the refinement claim):
try each Source exactly once, in round-robin order starting at `start`, and
return the first non-empty forwarding result, or `none` if all are empty. -/
def roundRobinFirst {β : Type} (ws : List (Option β)) (start : Nat) : Option β :=
  (List.range ws.length).findSome? (fun t => (ws.get? ((start + t) % ws.length)).getD none)

/-- A Source as seen by `shouldPropagateTxnStream`: `sid` is the source's
identity (what `operator==` on `Source` compares), `connected` the answer of
`isConnected()`. -/
structure SourceB where
  sid : Nat
  connected : Bool
deriving DecidableEq

/-- `LoadBalancer::shouldPropagateTxnStream(Source* in)`: scan `sources_` in
order; at the first connected Source return `*src == *in`; if no Source is
connected return `true`. The candidate `in` is identified by its `sid`. -/
def shouldPropagateTxnStream : List SourceB → Nat → Bool
  | [], _ => true
  | s :: rest, inSid => if s.connected then s.sid == inSid else shouldPropagateTxnStream rest inSid

/-- The first currently-connected Source in collection order, if any. -/
def firstConnected (ws : List SourceB) : Option SourceB :=
  ws.find? (fun s => s.connected)

/-- Spec-side description of the leader rule: the result
`shouldPropagateTxnStream` should compute from the first connected Source —
`*src == *in` when one exists, `true` when none is connected. -/
def leaderAnswer : Option SourceB → Nat → Bool
  | some c, inSid => c.sid == inSid
  | none, _ => true

/-! ## DOSGuard (src/unnamed/part_001) -/

/-- The per-IP entry of `ipState_`: `{transferedByte, requestsCount}`. -/
structure ClientState where
  transferedByte : Nat
  requestsCount : Nat
deriving DecidableEq

/-- The configuration of a `DOSGuard`: the three thresholds and the
whitelist-membership test supplied by the `WhitelistHandlerInterface`. -/
structure DOSGuardCfg where
  maxFetches : Nat
  maxConnCount : Nat
  maxRequestCount : Nat
  whitelisted : String → Bool

/-- The mutable maps of a `DOSGuard`: `ipState_` and `ipConnCount_`, each an
`unordered_map` keyed by IP, modelled as `String -> Option v`. -/
structure DOSGuardSt where
  ipState : String → Option ClientState
  ipConnCount : String → Option Nat

/-- The state of a freshly constructed `DOSGuard`: both maps empty. -/
def initialGuardState : DOSGuardSt :=
  { ipState := fun _ => none, ipConnCount := fun _ => none }

/-- Store `v` under key `ip` (insert-or-overwrite on an `unordered_map`). -/
def mapInsert {β : Type} (m : String → Option β) (ip : String) (v : β) : String → Option β :=
  fun k => if k = ip then some v else m k

/-- `m.erase(ip)` on an `unordered_map`. -/
def mapErase {β : Type} (m : String → Option β) (ip : String) : String → Option β :=
  fun k => if k = ip then none else m k

/-- `DOSGuard::isOk(ip)`: whitelisted clients are always ok; otherwise reject
if the `ipState_` entry (when present) exceeds the byte or request threshold,
then reject if the `ipConnCount_` entry (when present) exceeds the connection
threshold; otherwise ok. -/
def isOk (g : DOSGuardCfg) (st : DOSGuardSt) (ip : String) : Bool :=
  if g.whitelisted ip then
    true
  else if (match st.ipState ip with
           | some cs =>
             decide (cs.transferedByte > g.maxFetches) || decide (cs.requestsCount > g.maxRequestCount)
           | none => false) then
    false
  else if (match st.ipConnCount ip with
           | some c => decide (c > g.maxConnCount)
           | none => false) then
    false
  else
    true

/-- `DOSGuard::increment(ip)` (onConnect): whitelisted is a no-op; otherwise
`ipConnCount_[ip]++`, where `operator[]` default-inserts 0 when absent. -/
def increment (g : DOSGuardCfg) (st : DOSGuardSt) (ip : String) : DOSGuardSt :=
  if g.whitelisted ip then st
  else { st with ipConnCount := mapInsert st.ipConnCount ip ((st.ipConnCount ip).getD 0 + 1) }

/-- `DOSGuard::decrement(ip)` (onDisconnect): whitelisted is a no-op.
Otherwise `ASSERT(ipConnCount_[ip] > 0, ...)` — `operator[]` default-inserts
0 for an absent key, so a zero or absent count fails the assertion, modelled
as `none` (the process aborts; the inserted entry is then irrelevant). On the
surviving path the count is decremented and the entry erased when it reaches
zero. -/
def decrement (g : DOSGuardCfg) (st : DOSGuardSt) (ip : String) : Option DOSGuardSt :=
  if g.whitelisted ip then some st
  else
    let c := (st.ipConnCount ip).getD 0
    if c > 0 then
      let conn' := mapInsert st.ipConnCount ip (c - 1)
      some { st with ipConnCount := if c - 1 = 0 then mapErase conn' ip else conn' }
    else
      none

/-- `DOSGuard::add(ip, numObjects)` (recordBytes): whitelisted returns true
without recording; otherwise `ipState_[ip].transferedByte += numObjects`
(default-inserting `{0,0}`), then returns `isOk(ip)` on the updated state. -/
def add (g : DOSGuardCfg) (st : DOSGuardSt) (ip : String) (numObjects : Nat) :
    DOSGuardSt × Bool :=
  if g.whitelisted ip then (st, true)
  else
    let cs := (st.ipState ip).getD ⟨0, 0⟩
    let st' := { st with
      ipState := mapInsert st.ipState ip { cs with transferedByte := cs.transferedByte + numObjects } }
    (st', isOk g st' ip)

/-- `DOSGuard::request(ip)` (recordRequest): whitelisted returns true without
recording; otherwise `ipState_[ip].requestsCount++` (default-inserting
`{0,0}`), then returns `isOk(ip)` on the updated state. -/
def request (g : DOSGuardCfg) (st : DOSGuardSt) (ip : String) : DOSGuardSt × Bool :=
  if g.whitelisted ip then (st, true)
  else
    let cs := (st.ipState ip).getD ⟨0, 0⟩
    let st' := { st with
      ipState := mapInsert st.ipState ip { cs with requestsCount := cs.requestsCount + 1 } }
    (st', isOk g st' ip)

/-- `DOSGuard::clear()`: `ipState_.clear();` — empties the byte/request map
and touches nothing else. -/
def clear (st : DOSGuardSt) : DOSGuardSt :=
  { st with ipState := fun _ => none }

/-- Transferred bytes recorded for `ip` (zero when unseen). -/
def bytesOf (st : DOSGuardSt) (ip : String) : Nat :=
  match st.ipState ip with
  | some cs => cs.transferedByte
  | none => 0

/-- Requests recorded for `ip` (zero when unseen). -/
def reqsOf (st : DOSGuardSt) (ip : String) : Nat :=
  match st.ipState ip with
  | some cs => cs.requestsCount
  | none => 0

/-- Live connection count for `ip` (zero when unseen). -/
def connOf (st : DOSGuardSt) (ip : String) : Nat :=
  (st.ipConnCount ip).getD 0

/-- The guard state after the recording step of a non-whitelisted
`request(ip)`: `ipState_[ip].requestsCount++` written via the observations
(bytes unchanged, requests incremented). -/
def bumpRequests (st : DOSGuardSt) (ip : String) : DOSGuardSt :=
  { st with ipState := mapInsert st.ipState ip (ClientState.mk (bytesOf st ip) (reqsOf st ip + 1)) }

/-- The guard state after the surviving (count positive) path of
`decrement(ip)`: count decremented, entry erased when it reaches zero. -/
def decStep (st : DOSGuardSt) (ip : String) : DOSGuardSt :=
  { st with ipConnCount :=
      if (st.ipConnCount ip).getD 0 - 1 = 0
      then mapErase (mapInsert st.ipConnCount ip ((st.ipConnCount ip).getD 0 - 1)) ip
      else mapInsert st.ipConnCount ip ((st.ipConnCount ip).getD 0 - 1) }

/-- `k` consecutive `request(ip)` calls: final state together with the list
of the returned admission values, in call order. -/
def requestSeq (g : DOSGuardCfg) (st : DOSGuardSt) (ip : String) : Nat → DOSGuardSt × List Bool
  | 0 => (st, [])
  | k+1 =>
    let p := request g st ip
    let q := requestSeq g p.1 ip k
    (q.1, p.2 :: q.2)

/-- A concrete guard configuration for witnesses: thresholds 1000 bytes,
5 connections, 10 requests; exactly "10.0.0.1" whitelisted. -/
def g0 : DOSGuardCfg :=
  { maxFetches := 1000, maxConnCount := 5, maxRequestCount := 10,
    whitelisted := fun ip => ip == "10.0.0.1" }

/-- A concrete guard state with one live connection from "1.2.3.4". -/
def st8 : DOSGuardSt :=
  { ipState := fun _ => none,
    ipConnCount := mapInsert (fun _ => none) "1.2.3.4" 1 }

/-! ## Retry (src/src/util/Retry.hpp) -/

/-- `ExponentialBackoffStrategy` together with the `RetryStrategy` base-class
state (`initialDelay_`, `delay_`, and the cap `maxDelay_`). Delays are in
milliseconds. -/
structure ExpStrategy where
  initialDelay : Nat
  maxDelay : Nat
  delay : Nat
deriving DecidableEq

/-- `RetryStrategy::getDelay()`: the current delay, without advancing it. -/
def getDelay (s : ExpStrategy) : Nat :=
  s.delay

/-- Modelled from the spec: `ExponentialBackoffStrategy::nextDelay()` — its
body lives in Retry.cpp, which is not part of the sources; the spec gives
`nextDelay = min(currentDelay * 2, maxDelay)`. -/
def nextDelay (s : ExpStrategy) : Nat :=
  min (s.delay * 2) s.maxDelay

/-- Modelled from the spec: `RetryStrategy::increaseDelay()` — its body lives
in Retry.cpp, which is not part of the sources; the spec describes it as the
explicit mutation step that advances `currentDelay` to the next delay. -/
def increaseDelay (s : ExpStrategy) : ExpStrategy :=
  { s with delay := nextDelay s }

/-- Modelled from the spec: `RetryStrategy::reset()` — its body lives in
Retry.cpp, which is not part of the sources; the spec says reset restores the
delay to its initial value. -/
def stratReset (s : ExpStrategy) : ExpStrategy :=
  { s with delay := s.initialDelay }

/-- The state of a `util::Retry`: its strategy and `attemptNumber_`. -/
structure RetryState where
  strategy : ExpStrategy
  attemptNumber : Nat
deriving DecidableEq

/-- `Retry::retry(func)` (schedule): `timer_.expires_after(strategy_->getDelay());
strategy_->increaseDelay();` — arms the timer with the current delay and then
advances the strategy, before any timer completion runs. Returns the new
Retry state and the armed delay. -/
def retrySchedule (st : RetryState) : RetryState × Nat :=
  let d := getDelay st.strategy
  ({ st with strategy := increaseDelay st.strategy }, d)

/-- The timer-completion handler installed by `Retry::retry`: on
`operation_aborted` it returns without doing anything; otherwise it
increments `attemptNumber_` and invokes the user callback. The returned
boolean reports whether the user callback was invoked. -/
def onTimerComplete (st : RetryState) (aborted : Bool) : RetryState × Bool :=
  if aborted then (st, false)
  else ({ st with attemptNumber := st.attemptNumber + 1 }, true)

/-- Modelled from the spec: `Retry::reset()` — its body lives in Retry.cpp,
which is not part of the sources; the spec says it resets both the delay
state and the attempt counter to initial values. -/
def retryReset (st : RetryState) : RetryState :=
  { st with strategy := stratReset st.strategy, attemptNumber := 0 }

/-- The armed delays of `k` consecutive `retry` (schedule) calls, in call
order, with no timer completing in between. -/
def armedDelays (st : RetryState) : Nat → List Nat
  | 0 => []
  | k+1 =>
    let p := retrySchedule st
    p.2 :: armedDelays p.1 k

/-- A fresh Retry with the exponential strategy of the testable property:
initial delay 100ms, maximum delay 1600ms. -/
def expRetryInit : RetryState :=
  { strategy := { initialDelay := 100, maxDelay := 1600, delay := 100 }, attemptNumber := 0 }

/-! ## Helper lemmas about the execute loop -/

theorem executeLoop_succ {α σ : Type} (ws : List α) (hasL : α → Bool)
    (f : α → σ → σ × Bool) (idx k : Nat) (st : σ) (s : α) (hs : ws.get? idx = some s) :
    executeLoop ws hasL f idx (k+1) st =
      if hasL s then
        (if (f s st).2 then some ((f s st).1, true)
         else executeLoop ws hasL f ((idx + 1) % ws.length) k (f s st).1)
      else executeLoop ws hasL f ((idx + 1) % ws.length) k st := by
  simp only [executeLoop, hs]

theorem executeLoop_success_step {α σ : Type} (ws : List α) (hasL : α → Bool)
    (f : α → σ → σ × Bool) (idx k : Nat) (st : σ) (s : α)
    (hs : ws.get? idx = some s) (hl : hasL s = true) (hf : (f s st).2 = true) :
    executeLoop ws hasL f idx (k+1) st = some ((f s st).1, true) := by
  rw [executeLoop_succ ws hasL f idx k st s hs]
  simp [hl, hf]

theorem executeLoop_some_true {α σ : Type} (ws : List α) (hasL : α → Bool)
    (f : α → σ → σ × Bool) :
    ∀ (fuel idx : Nat) (st : σ) (q : σ × Bool),
      executeLoop ws hasL f idx fuel st = some q → q.2 = true := by
  intro fuel
  induction fuel with
  | zero =>
    intro idx st q h
    exact absurd h (by simp [executeLoop])
  | succ k ih =>
    intro idx st q h
    cases hget : ws.get? idx with
    | none =>
      rw [executeLoop, hget] at h
      exact absurd h (by simp)
    | some s =>
      rw [executeLoop_succ ws hasL f idx k st s hget] at h
      by_cases hl : hasL s = true
      · rw [if_pos hl] at h
        by_cases hf : (f s st).2 = true
        · rw [if_pos hf] at h
          injection h with h2
          subst h2
          rfl
        · rw [if_neg hf] at h
          exact ih _ _ _ h
      · rw [if_neg hl] at h
        exact ih _ _ _ h

theorem executeB_pos {α σ : Type} (ws : List α) (hasL : α → Bool)
    (f : α → σ → σ × Bool) (r fuel : Nat) (st : σ) (h : ws.length ≠ 0) :
    executeB ws hasL f r fuel st = executeLoop ws hasL f (r % ws.length) fuel st := by
  simp [executeB, startSourceIdx, h]

theorem executeB_some_true {α σ : Type} (ws : List α) (hasL : α → Bool)
    (f : α → σ → σ × Bool) (r fuel : Nat) (st : σ) (q : σ × Bool)
    (h : executeB ws hasL f r fuel st = some q) : q.2 = true := by
  by_cases hn : ws.length = 0
  · simp [executeB, startSourceIdx, hn] at h
  · rw [executeB_pos ws hasL f r fuel st hn] at h
    exact executeLoop_some_true ws hasL f _ _ _ _ h

theorem executeLoop_reaches {α σ : Type} (ws : List α) (hasL : α → Bool)
    (f : α → σ → σ × Bool) :
    ∀ (fuel idx : Nat) (st : σ),
      idx < ws.length →
      (∃ t, t < fuel ∧ ∃ s, ws.get? ((idx + t) % ws.length) = some s ∧
         hasL s = true ∧ ∀ st₀ : σ, (f s st₀).2 = true) →
      ∃ st', executeLoop ws hasL f idx fuel st = some (st', true) := by
  intro fuel
  induction fuel with
  | zero =>
    rintro idx st _ ⟨t, ht, _⟩
    omega
  | succ k ih =>
    rintro idx st hidx ⟨t, ht, s, hget, hhas, hwork⟩
    obtain ⟨s₀, hs₀⟩ : ∃ s₀, ws.get? idx = some s₀ := by
      cases hc : ws.get? idx with
      | none => rw [List.get?_eq_none] at hc; omega
      | some x => exact ⟨x, rfl⟩
    by_cases hcur : hasL s₀ = true ∧ (f s₀ st).2 = true
    · exact ⟨(f s₀ st).1, executeLoop_success_step ws hasL f idx k st s₀ hs₀ hcur.1 hcur.2⟩
    · have ht0 : t ≠ 0 := by
        intro h0
        subst h0
        rw [Nat.add_zero, Nat.mod_eq_of_lt hidx, hs₀] at hget
        injection hget with hEq
        subst hEq
        exact hcur ⟨hhas, hwork st⟩
      obtain ⟨t', rfl⟩ : ∃ t', t = t' + 1 := ⟨t - 1, by omega⟩
      have hidx' : (idx + 1) % ws.length < ws.length := Nat.mod_lt _ (by omega)
      have hwit : ∃ s', ws.get? (((idx + 1) % ws.length + t') % ws.length) = some s' ∧
          hasL s' = true ∧ ∀ st₀ : σ, (f s' st₀).2 = true := by
        refine ⟨s, ?_, hhas, hwork⟩
        rw [Nat.mod_add_mod]
        have harith : idx + 1 + t' = idx + (t' + 1) := by omega
        rw [harith]
        exact hget
      by_cases hl : hasL s₀ = true
      · have hf : (f s₀ st).2 = false := by
          cases hv : (f s₀ st).2 with
          | false => rfl
          | true => exact absurd ⟨hl, hv⟩ hcur
        obtain ⟨st', hst'⟩ := ih ((idx + 1) % ws.length) (f s₀ st).1 hidx' ⟨t', by omega, hwit⟩
        refine ⟨st', ?_⟩
        rw [executeLoop_succ ws hasL f idx k st s₀ hs₀, if_pos hl, if_neg (by simp [hf])]
        exact hst'
      · obtain ⟨st', hst'⟩ := ih ((idx + 1) % ws.length) st hidx' ⟨t', by omega, hwit⟩
        refine ⟨st', ?_⟩
        rw [executeLoop_succ ws hasL f idx k st s₀ hs₀, if_neg hl]
        exact hst'

theorem rotation_hits {n i r : Nat} (hi : i < n) : ∃ t, t < n ∧ (r % n + t) % n = i := by
  have hpos : 0 < n := by omega
  have hr : r % n < n := Nat.mod_lt _ hpos
  refine ⟨(n + i - r % n) % n, Nat.mod_lt _ hpos, ?_⟩
  rw [Nat.add_mod_mod]
  have h1 : r % n + (n + i - r % n) = n + i := by omega
  rw [h1, Nat.add_mod_left, Nat.mod_eq_of_lt hi]

/-! ## Claim theorems -/

/-- C1: on an empty Source pool, the fetch-with-failover primitive does not
fail fast with a defined error: the starting-index computation
`rand() % sources_.size()` divides by zero (undefined behaviour, modelled as
`none`), so `execute` — and with it `fetchLedger` and `loadInitialLedger` —
never produces a defined result, for any number of loop iterations. -/
theorem execute_empty_pool_divides_by_zero :
    ∀ (σ : Type) (hasL : Nat → Bool) (f : Nat → σ → σ × Bool) (r fuel : Nat) (st : σ),
      startSourceIdx r 0 = none ∧
      executeB ([] : List Nat) hasL f r fuel st = none ∧
      fetchLedger [] r fuel = none ∧
      loadInitialLedger [] r fuel = none := by
  intro σ hasL f r fuel st
  exact ⟨rfl, rfl, rfl, rfl⟩

/-- C2: in a pool containing a Source that has the requested ledger and on
which the caller-supplied worker succeeds, `execute` terminates with success
within one full pass (`poolSize` iterations) from any random start, and the
loop breaks immediately — consulting no further Source — as soon as a worker
invocation returns true. -/
theorem execute_success_termination {α σ : Type} (ws : List α) (hasL : α → Bool)
    (f : α → σ → σ × Bool) (r : Nat) (st : σ) (i : Nat) (s : α)
    (hget : ws.get? i = some s) (hhas : hasL s = true)
    (hwork : ∀ st₀ : σ, (f s st₀).2 = true) :
    (∃ st', executeB ws hasL f r ws.length st = some (st', true)) ∧
    (∀ (idx k : Nat) (s₀ : α) (st₀ : σ), ws.get? idx = some s₀ → hasL s₀ = true →
       (f s₀ st₀).2 = true →
       executeLoop ws hasL f idx (k+1) st₀ = some ((f s₀ st₀).1, true)) := by
  constructor
  · have hi : i < ws.length := by
      by_contra hge
      rw [List.get?_eq_none.mpr (by omega)] at hget
      exact absurd hget (by simp)
    have hn : ws.length ≠ 0 := by omega
    rw [executeB_pos ws hasL f r ws.length st hn]
    obtain ⟨t, ht, hteq⟩ := rotation_hits (r := r) hi
    refine executeLoop_reaches ws hasL f ws.length (r % ws.length) st
      (Nat.mod_lt _ (by omega)) ⟨t, ht, s, ?_, hhas, hwork⟩
    rw [hteq]
    exact hget
  · intro idx k s₀ st₀ hs₀ hl hf
    exact executeLoop_success_step ws hasL f idx k st₀ s₀ hs₀ hl hf

theorem execute_success_termination_witness :
    (([(0 : Nat)].get? 0 = some 0) ∧ ((fun _ : Nat => true) 0 = true) ∧
      (∀ st₀ : Unit, ((fun (_ : Nat) (_ : Unit) => ((), true)) 0 st₀).2 = true)) ∧
    ∃ st', executeB [(0 : Nat)] (fun _ => true) (fun _ _ => ((), true)) 5
      [(0 : Nat)].length () = some (st', true) :=
  ⟨⟨rfl, rfl, fun _ => rfl⟩,
    (execute_success_termination [(0 : Nat)] (fun _ => true) (fun _ _ => ((), true)) 5 () 0 0
      rfl rfl (fun _ => rfl)).1⟩

/-- C10: the `while (true)` loop of `execute` has no exit path yielding
false, so whenever `execute` returns, its result is `true`; consequently
`loadInitialLedger`'s success flag is `true` whenever it returns, and
`fetchLedger` never returns the default-constructed empty result on any
terminating call. -/
theorem execute_result_always_true :
    (∀ (α σ : Type) (ws : List α) (hasL : α → Bool) (f : α → σ → σ × Bool)
       (r fuel : Nat) (st : σ) (q : σ × Bool),
       executeB ws hasL f r fuel st = some q → q.2 = true) ∧
    (∀ (ws : List InitSource) (r fuel : Nat) (q : List Nat × Bool),
       loadInitialLedger ws r fuel = some q → q.2 = true) ∧
    (∀ (ws : List FetchSource) (r fuel : Nat) (out : Option (Nat × Bool)),
       fetchLedger ws r fuel = some out → out.isSome = true) := by
  refine ⟨fun α σ ws hasL f r fuel st q h => executeB_some_true ws hasL f r fuel st q h, ?_, ?_⟩
  · intro ws r fuel q h
    exact executeB_some_true _ _ _ _ _ _ _ h
  · intro ws r fuel out h
    unfold fetchLedger at h
    cases hex : executeB ws (fun s => s.hasLedgerB) fetchWorker r fuel ((0 : Nat), false) with
    | none =>
      rw [hex] at h
      exact absurd h (by simp)
    | some q =>
      obtain ⟨resp, success⟩ := q
      have hsucc : success = true := executeB_some_true _ _ _ _ _ _ _ hex
      rw [hex] at h
      simp only [hsucc, if_true] at h
      injection h with h2
      subst h2
      rfl

theorem execute_result_always_true_witness :
    fetchLedger [⟨true, true, true, 7⟩] 0 1 = some (some (7, true)) ∧
    (some ((7 : Nat), true)).isSome = true :=
  ⟨rfl, execute_result_always_true.2.2 [⟨true, true, true, 7⟩] 0 1 (some (7, true)) rfl⟩

theorem find?_eq_head?_filter {α : Type} (p : α → Bool) (l : List α) :
    l.find? p = (l.filter p).head? := by
  induction l with
  | nil => rfl
  | cons a l ih =>
    by_cases h : p a = true
    · rw [List.find?_cons_of_pos _ h, List.filter_cons_of_pos h]
      rfl
    · rw [List.find?_cons_of_neg _ (by simpa using h),
        List.filter_cons_of_neg (by simpa using h), ih]

theorem shouldPropagate_eq_find (ws : List SourceB) (sid : Nat) :
    shouldPropagateTxnStream ws sid = leaderAnswer (firstConnected ws) sid := by
  induction ws with
  | nil => rfl
  | cons s rest ih =>
    rw [shouldPropagateTxnStream]
    by_cases hc : s.connected = true
    · rw [if_pos hc, firstConnected, List.find?_cons_of_pos _ hc]
      rfl
    · rw [if_neg (by simp [hc]), firstConnected,
        List.find?_cons_of_neg _ (by simpa using hc)]
      exact ih

/-- C4: `shouldPropagateTxnStream` returns true for a candidate Source iff
the candidate equals the first currently-connected Source in collection
order, returns true unconditionally when no Source is connected, returns
true for exactly the connected Source when exactly one is connected, and is
a pure function of the pool state, so repeated calls with unchanged
connectivity return the same answer. -/
theorem shouldPropagate_first_connected :
    (∀ (ws : List SourceB) (sid : Nat) (c : SourceB), firstConnected ws = some c →
       (shouldPropagateTxnStream ws sid = true ↔ c.sid = sid)) ∧
    (∀ (ws : List SourceB) (sid : Nat), firstConnected ws = none →
       shouldPropagateTxnStream ws sid = true) ∧
    (∀ (ws : List SourceB) (sid : Nat) (c : SourceB),
       ws.filter (fun s => s.connected) = [c] →
       (shouldPropagateTxnStream ws sid = true ↔ c.sid = sid)) ∧
    (∀ (ws : List SourceB) (sid : Nat),
       shouldPropagateTxnStream ws sid = shouldPropagateTxnStream ws sid) := by
  have h1 : ∀ (ws : List SourceB) (sid : Nat) (c : SourceB), firstConnected ws = some c →
      (shouldPropagateTxnStream ws sid = true ↔ c.sid = sid) := by
    intro ws sid c hc
    rw [shouldPropagate_eq_find, hc]
    simp [leaderAnswer]
  refine ⟨h1, ?_, ?_, fun _ _ => rfl⟩
  · intro ws sid hc
    rw [shouldPropagate_eq_find, hc]
    rfl
  · intro ws sid c hfil
    refine h1 ws sid c ?_
    rw [firstConnected, find?_eq_head?_filter, hfil]
    rfl

theorem shouldPropagate_first_connected_witness :
    firstConnected [⟨1, false⟩, ⟨2, true⟩, ⟨3, true⟩] = some ⟨2, true⟩ ∧
    (shouldPropagateTxnStream [⟨1, false⟩, ⟨2, true⟩, ⟨3, true⟩] 2 = true ↔
      (⟨2, true⟩ : SourceB).sid = 2) :=
  ⟨by decide,
    shouldPropagate_first_connected.1 [⟨1, false⟩, ⟨2, true⟩, ⟨3, true⟩] 2 ⟨2, true⟩ (by decide)⟩

theorem forwardLoop_succ_found {β : Type} (ws : List (Option β)) (idx m : Nat) (v : β)
    (hs : ws.get? idx = some (some v)) :
    forwardLoop ws idx (m+1) = some v := by
  simp only [forwardLoop, hs]

theorem forwardLoop_succ_empty {β : Type} (ws : List (Option β)) (idx m : Nat)
    (hs : ws.get? idx = some none) :
    forwardLoop ws idx (m+1) = forwardLoop ws ((idx + 1) % ws.length) m := by
  simp only [forwardLoop, hs]

theorem forwardLoop_eq {β : Type} (ws : List (Option β)) :
    ∀ (k idx : Nat), idx < ws.length →
      forwardLoop ws idx k =
        (List.range k).findSome? (fun t => (ws.get? ((idx + t) % ws.length)).getD none) := by
  intro k
  induction k with
  | zero => intro idx _; rfl
  | succ m ih =>
    intro idx hidx
    have hpos : 0 < ws.length := by omega
    obtain ⟨s, hs⟩ : ∃ s, ws.get? idx = some s := by
      cases hc : ws.get? idx with
      | none => rw [List.get?_eq_none] at hc; omega
      | some x => exact ⟨x, rfl⟩
    have hidx' : (idx + 1) % ws.length < ws.length := Nat.mod_lt _ hpos
    rw [List.range_succ_eq_map, List.findSome?_cons]
    have h0 : (ws.get? ((idx + 0) % ws.length)).getD none = s := by
      rw [Nat.add_zero, Nat.mod_eq_of_lt hidx, hs]
      rfl
    rw [h0]
    cases s with
    | some v => rw [forwardLoop_succ_found ws idx m v hs]
    | none =>
      rw [forwardLoop_succ_empty ws idx m hs]
      rw [List.findSome?_map, ih ((idx + 1) % ws.length) hidx']
      have hfun : (fun t => (ws.get? (((idx + 1) % ws.length + t) % ws.length)).getD none)
          = ((fun t => (ws.get? ((idx + t) % ws.length)).getD none) ∘ Nat.succ) := by
        funext t
        show (ws.get? (((idx + 1) % ws.length + t) % ws.length)).getD none
          = (ws.get? ((idx + (t + 1)) % ws.length)).getD none
        rw [Nat.mod_add_mod]
        have harith : idx + 1 + t = idx + (t + 1) := by omega
        rw [harith]
      rw [hfun]

/-- C5: on a non-empty pool, `forwardToRippled` equals the round-robin
single-pass description: each Source is tried at most once, in round-robin
order from the random starting index, the first non-empty forwarding result
is returned, and when every Source's forward attempt is empty the call
returns the empty optional. -/
theorem forward_round_robin {β : Type} :
    (∀ (ws : List (Option β)) (r : Nat), ws ≠ [] →
       forwardToRippled ws r = some (roundRobinFirst ws (r % ws.length))) ∧
    (∀ (ws : List (Option β)) (r : Nat), ws ≠ [] → (∀ x ∈ ws, x = none) →
       forwardToRippled ws r = some none) := by
  have hmain : ∀ (ws : List (Option β)) (r : Nat), ws ≠ [] →
      forwardToRippled ws r = some (roundRobinFirst ws (r % ws.length)) := by
    intro ws r hne
    have hlen : ws.length ≠ 0 := by
      intro h
      exact hne (List.length_eq_zero.mp h)
    simp only [forwardToRippled, startSourceIdx, if_neg hlen]
    rw [roundRobinFirst]
    exact congrArg some (forwardLoop_eq ws ws.length (r % ws.length) (Nat.mod_lt _ (by omega)))
  constructor
  · exact hmain
  · intro ws r hne hall
    rw [hmain ws r hne]
    have hlen : ws.length ≠ 0 := by
      intro h
      exact hne (List.length_eq_zero.mp h)
    congr 1
    rw [roundRobinFirst]
    rw [List.findSome?_eq_none_iff]
    intro t _
    have hlt : (r % ws.length + t) % ws.length < ws.length := Nat.mod_lt _ (by omega)
    obtain ⟨x, hx⟩ : ∃ x, ws.get? ((r % ws.length + t) % ws.length) = some x := by
      cases hc : ws.get? ((r % ws.length + t) % ws.length) with
      | none => rw [List.get?_eq_none] at hc; omega
      | some x => exact ⟨x, rfl⟩
    rw [hx]
    simpa using hall x (List.get?_mem hx)

theorem forward_round_robin_witness :
    (([some 5, none] : List (Option Nat)) ≠ [] ∧ (∀ x ∈ ([none, none] : List (Option Nat)), x = none)) ∧
    forwardToRippled ([some 5, none] : List (Option Nat)) 3 =
      some (roundRobinFirst ([some 5, none] : List (Option Nat))
        (3 % ([some 5, none] : List (Option Nat)).length)) :=
  ⟨⟨by simp, by simp⟩, (@forward_round_robin Nat).1 [some 5, none] 3 (by simp)⟩

/-! ## DOSGuard lemmas -/

theorem isOk_eq (g : DOSGuardCfg) (st : DOSGuardSt) (ip : String)
    (hw : g.whitelisted ip = false) :
    isOk g st ip =
      !(decide (bytesOf st ip > g.maxFetches) || decide (reqsOf st ip > g.maxRequestCount)
        || decide (connOf st ip > g.maxConnCount)) := by
  rw [isOk, if_neg (by simp [hw])]
  cases h1 : st.ipState ip with
  | none =>
    cases h2 : st.ipConnCount ip with
    | none => simp [bytesOf, reqsOf, connOf, h1, h2]
    | some c =>
      by_cases hgt : c > g.maxConnCount <;>
        simp [bytesOf, reqsOf, connOf, h1, h2, hgt]
  | some cs =>
    cases h2 : st.ipConnCount ip with
    | none =>
      by_cases hb : cs.transferedByte > g.maxFetches <;>
        by_cases hr : cs.requestsCount > g.maxRequestCount <;>
          simp [bytesOf, reqsOf, connOf, h1, h2, hb, hr]
    | some c =>
      by_cases hb : cs.transferedByte > g.maxFetches <;>
        by_cases hr : cs.requestsCount > g.maxRequestCount <;>
          by_cases hgt : c > g.maxConnCount <;>
            simp [bytesOf, reqsOf, connOf, h1, h2, hb, hr, hgt]

theorem request_step (g : DOSGuardCfg) (st : DOSGuardSt) (ip : String)
    (hw : g.whitelisted ip = false) :
    request g st ip = (bumpRequests st ip, isOk g (bumpRequests st ip) ip) := by
  rw [request, if_neg (by simp [hw])]
  cases h1 : st.ipState ip with
  | none => simp [bumpRequests, bytesOf, reqsOf, h1]
  | some cs => simp [bumpRequests, bytesOf, reqsOf, h1]

theorem bytesOf_bump (st : DOSGuardSt) (ip : String) :
    bytesOf (bumpRequests st ip) ip = bytesOf st ip := by
  simp [bumpRequests, bytesOf, mapInsert]

theorem reqsOf_bump (st : DOSGuardSt) (ip : String) :
    reqsOf (bumpRequests st ip) ip = reqsOf st ip + 1 := by
  simp [bumpRequests, reqsOf, bytesOf, mapInsert]

theorem connOf_bump (st : DOSGuardSt) (ip : String) :
    connOf (bumpRequests st ip) ip = connOf st ip := rfl

theorem requestSeq_results (g : DOSGuardCfg) (ip : String) (hw : g.whitelisted ip = false) :
    ∀ (k : Nat) (st : DOSGuardSt), bytesOf st ip = 0 → connOf st ip = 0 →
      (requestSeq g st ip k).2 =
        (List.range k).map (fun t => decide (reqsOf st ip + t + 1 ≤ g.maxRequestCount)) := by
  intro k
  induction k with
  | zero => intro st _ _; rfl
  | succ m ih =>
    intro st hb hc
    have hnext : requestSeq g st ip (m+1) =
        ((requestSeq g (request g st ip).1 ip m).1,
          (request g st ip).2 :: (requestSeq g (request g st ip).1 ip m).2) := rfl
    rw [hnext, request_step g st ip hw]
    have hb' : bytesOf (bumpRequests st ip) ip = 0 := by
      rw [bytesOf_bump]
      exact hb
    have hc' : connOf (bumpRequests st ip) ip = 0 := by
      rw [connOf_bump]
      exact hc
    have hr' : reqsOf (bumpRequests st ip) ip = reqsOf st ip + 1 := reqsOf_bump st ip
    have hok : isOk g (bumpRequests st ip) ip
        = decide (reqsOf st ip + 0 + 1 ≤ g.maxRequestCount) := by
      rw [isOk_eq g _ ip hw, hb', hc', hr']
      rw [decide_eq_false (p := 0 > g.maxFetches) (by omega),
        decide_eq_false (p := 0 > g.maxConnCount) (by omega)]
      simp only [Bool.false_or, Bool.or_false, Nat.add_zero]
      rcases le_or_lt (reqsOf st ip + 1) g.maxRequestCount with hle | hgt
      · rw [decide_eq_false (p := reqsOf st ip + 1 > g.maxRequestCount) (by omega),
          decide_eq_true hle]
        rfl
      · rw [decide_eq_true (p := reqsOf st ip + 1 > g.maxRequestCount) hgt,
          decide_eq_false (by omega)]
        rfl
    rw [List.range_succ_eq_map, List.map_cons, List.map_map]
    simp only [ih _ hb' hc', hr', hok]
    refine congrArg (_ :: ·) ?_
    refine congrArg (List.map · (List.range m)) ?_
    funext t
    show decide (reqsOf st ip + 1 + t + 1 ≤ g.maxRequestCount)
      = decide (reqsOf st ip + Nat.succ t + 1 ≤ g.maxRequestCount)
    have harith : reqsOf st ip + 1 + t + 1 = reqsOf st ip + Nat.succ t + 1 := by omega
    rw [harith]

theorem requestSeq_whitelisted (g : DOSGuardCfg) (ip : String) (hw : g.whitelisted ip = true) :
    ∀ (k : Nat) (st : DOSGuardSt), requestSeq g st ip k = (st, List.replicate k true) := by
  intro k
  induction k with
  | zero => intro st; rfl
  | succ m ih =>
    intro st
    have hreq : request g st ip = (st, true) := by
      rw [request, if_pos (by simp [hw])]
    have hnext : requestSeq g st ip (m+1) =
        ((requestSeq g (request g st ip).1 ip m).1,
          (request g st ip).2 :: (requestSeq g (request g st ip).1 ip m).2) := rfl
    rw [hnext, hreq]
    simp [ih st, List.replicate_succ]

/-- C3: for a non-whitelisted ip, `isOk` returns false iff the transferred
bytes exceed `maxFetches` or the request count exceeds `maxRequestCount` or
the connection count exceeds `maxConnCount` (each an independent gate,
counters zero for an unseen ip); a whitelisted ip is always ok; with
`maxRequestCount = 10`, eleven consecutive `request(ip)` calls on a
previously-unseen non-whitelisted ip return true ten times then false; and a
whitelisted ip stays admitted with the guard state unchanged. -/
theorem dosguard_isOk_characterization :
    (∀ (g : DOSGuardCfg) (st : DOSGuardSt) (ip : String), g.whitelisted ip = false →
       (isOk g st ip = false ↔ (bytesOf st ip > g.maxFetches ∨
         reqsOf st ip > g.maxRequestCount ∨ connOf st ip > g.maxConnCount))) ∧
    (∀ (g : DOSGuardCfg) (st : DOSGuardSt) (ip : String), g.whitelisted ip = true →
       isOk g st ip = true) ∧
    (∀ (g : DOSGuardCfg) (st : DOSGuardSt) (ip : String), g.whitelisted ip = false →
       g.maxRequestCount = 10 → st.ipState ip = none → st.ipConnCount ip = none →
       (requestSeq g st ip 11).2 = List.replicate 10 true ++ [false]) ∧
    (∀ (g : DOSGuardCfg) (st : DOSGuardSt) (ip : String) (k : Nat), g.whitelisted ip = true →
       requestSeq g st ip k = (st, List.replicate k true)) := by
  refine ⟨?_, ?_, ?_, fun g st ip k hw => requestSeq_whitelisted g ip hw k st⟩
  · intro g st ip hw
    rw [isOk_eq g st ip hw]
    by_cases h1 : bytesOf st ip > g.maxFetches <;>
      by_cases h2 : reqsOf st ip > g.maxRequestCount <;>
        by_cases h3 : connOf st ip > g.maxConnCount <;>
          simp [h1, h2, h3]
  · intro g st ip hw
    rw [isOk, if_pos (by simp [hw])]
  · intro g st ip hw h10 h1 h2
    rw [requestSeq_results g ip hw 11 st (by simp [bytesOf, h1]) (by simp [connOf, h2])]
    have hr0 : reqsOf st ip = 0 := by simp [reqsOf, h1]
    rw [hr0, h10]
    decide

theorem dosguard_isOk_characterization_witness :
    (g0.whitelisted "1.2.3.4" = false ∧ g0.maxRequestCount = 10 ∧
      initialGuardState.ipState "1.2.3.4" = none ∧
      initialGuardState.ipConnCount "1.2.3.4" = none) ∧
    (requestSeq g0 initialGuardState "1.2.3.4" 11).2 = List.replicate 10 true ++ [false] :=
  ⟨⟨by decide, rfl, rfl, rfl⟩,
    dosguard_isOk_characterization.2.2.1 g0 initialGuardState "1.2.3.4"
      (by decide) rfl rfl rfl⟩

/-- C8: for a non-whitelisted ip, `decrement` on a positive count decrements
it (removing the map entry when it reaches zero), `decrement` on a zero or
absent count fails the loud `ASSERT` (modelled `none`) rather than silently
clamping, and whitelisted ips are a no-op for both `increment` and
`decrement`. The connection count is a `Nat`, so it can never go negative. -/
theorem dosguard_decrement_behaviour :
    (∀ (g : DOSGuardCfg) (st : DOSGuardSt) (ip : String),
       g.whitelisted ip = false → connOf st ip > 0 →
       ∃ st', decrement g st ip = some st' ∧
         connOf st' ip = connOf st ip - 1 ∧
         (connOf st ip = 1 → st'.ipConnCount ip = none)) ∧
    (∀ (g : DOSGuardCfg) (st : DOSGuardSt) (ip : String),
       g.whitelisted ip = false → connOf st ip = 0 → decrement g st ip = none) ∧
    (∀ (g : DOSGuardCfg) (st : DOSGuardSt) (ip : String), g.whitelisted ip = true →
       increment g st ip = st ∧ decrement g st ip = some st) := by
  refine ⟨?_, ?_, ?_⟩
  · intro g st ip hw hpos
    have hw' : ¬ g.whitelisted ip = true := by simp [hw]
    rw [connOf] at hpos
    have hdec : decrement g st ip = some (decStep st ip) := by
      simp only [decrement]
      rw [if_neg hw', if_pos hpos]
      rfl
    refine ⟨decStep st ip, hdec, ?_, ?_⟩
    · by_cases hc1 : (st.ipConnCount ip).getD 0 - 1 = 0
      · simp [connOf, decStep, hc1, mapErase]
      · simp [connOf, decStep, hc1, mapInsert]
    · intro h1
      rw [connOf] at h1
      have hc1 : (st.ipConnCount ip).getD 0 - 1 = 0 := by omega
      simp [decStep, hc1, mapErase]
  · intro g st ip hw h0
    have hw' : ¬ g.whitelisted ip = true := by simp [hw]
    rw [connOf] at h0
    simp only [decrement]
    rw [if_neg hw', if_neg (by omega)]
  · intro g st ip hw
    constructor
    · rw [increment, if_pos (by simp [hw])]
    · rw [decrement, if_pos (by simp [hw])]

theorem dosguard_decrement_behaviour_witness :
    (g0.whitelisted "1.2.3.4" = false ∧ connOf st8 "1.2.3.4" > 0) ∧
    ∃ st', decrement g0 st8 "1.2.3.4" = some st' ∧
      connOf st' "1.2.3.4" = connOf st8 "1.2.3.4" - 1 ∧
      (connOf st8 "1.2.3.4" = 1 → st'.ipConnCount "1.2.3.4" = none) :=
  ⟨⟨by decide, by decide⟩,
    dosguard_decrement_behaviour.1 g0 st8 "1.2.3.4" (by decide) (by decide)⟩

/-- C9: `clear()` empties all per-IP transferred-byte and request counters
(the whole `ipState_` map) and leaves the per-IP connection counts
unchanged. -/
theorem dosguard_clear_frame :
    ∀ (st : DOSGuardSt) (ip : String),
      (clear st).ipState ip = none ∧
      bytesOf (clear st) ip = 0 ∧
      reqsOf (clear st) ip = 0 ∧
      (clear st).ipConnCount = st.ipConnCount :=
  fun _ _ => ⟨rfl, rfl, rfl, rfl⟩

/-! ## Retry lemmas -/

theorem armedDelays_chain :
    ∀ (k : Nat) (st : RetryState), st.strategy.delay ≤ st.strategy.maxDelay →
      List.Chain' (· ≤ ·) (armedDelays st k) := by
  intro k
  induction k with
  | zero => intro st _; simp [armedDelays]
  | succ m ih =>
    intro st hle
    have hstep : armedDelays st (m+1) =
        st.strategy.delay :: armedDelays { st with strategy := increaseDelay st.strategy } m := rfl
    rw [hstep, List.chain'_cons']
    constructor
    · intro y hy
      cases m with
      | zero => simp [armedDelays] at hy
      | succ m' =>
        have hhead : (armedDelays { st with strategy := increaseDelay st.strategy } (m'+1)).head?
            = some (min (st.strategy.delay * 2) st.strategy.maxDelay) := rfl
        rw [hhead] at hy
        simp only [Option.mem_some_iff] at hy
        subst hy
        exact le_min (by omega) hle
    · exact ih _ (min_le_right _ _)

/-- C6: each `retry` (schedule) call arms the timer with the strategy's
current delay and advances the delay immediately, before the timer fires and
without touching the attempt counter; hence consecutive schedule calls give
a monotonically non-decreasing armed-delay sequence even before any callback
runs; with the exponential strategy (initial 100ms, cap 1600ms) the armed
delays are 100, 200, 400, 800, 1600, 1600; and `reset` restores the delay to
the initial delay and the attempt count to 0. -/
theorem retry_armed_delays :
    (∀ st : RetryState, (retrySchedule st).2 = st.strategy.delay ∧
       (retrySchedule st).1.strategy.delay = min (st.strategy.delay * 2) st.strategy.maxDelay ∧
       (retrySchedule st).1.attemptNumber = st.attemptNumber) ∧
    (∀ (st : RetryState) (k : Nat), st.strategy.delay ≤ st.strategy.maxDelay →
       List.Chain' (· ≤ ·) (armedDelays st k)) ∧
    armedDelays expRetryInit 6 = [100, 200, 400, 800, 1600, 1600] ∧
    (∀ st : RetryState, (retryReset st).strategy.delay = st.strategy.initialDelay ∧
       (retryReset st).attemptNumber = 0) := by
  refine ⟨fun st => ⟨rfl, rfl, rfl⟩, fun st k h => armedDelays_chain k st h, ?_, fun st => ⟨rfl, rfl⟩⟩
  decide

theorem retry_armed_delays_witness :
    expRetryInit.strategy.delay ≤ expRetryInit.strategy.maxDelay ∧
    List.Chain' (· ≤ ·) (armedDelays expRetryInit 6) :=
  ⟨by decide, retry_armed_delays.2.1 expRetryInit 6 (by decide)⟩

/-- C7: when the timer completes with `operation_aborted` (cancelled before
firing), the completion handler returns without invoking the user callback
(the returned flag is false) and without incrementing the attempt counter
(the Retry state is unchanged). -/
theorem cancelled_timer_no_callback :
    ∀ st : RetryState, onTimerComplete st true = (st, false) ∧
      (onTimerComplete st true).1.attemptNumber = st.attemptNumber :=
  fun _ => ⟨rfl, rfl⟩

end Clio
